import Mathlib

/-!
Verification of the rotating Bitcoin address pool of
`functions/get-address/address-pool.ts` (class `AddressPoolManager`) and of
the pieces of the derivation/encoding pipeline that the specification talks
about.  The TypeScript code is shallowly embedded: `Date.now()` timestamps
become `Int` values (JS numbers of milliseconds), the Netlify blob store
becomes explicit state passing (`Option AddressPoolState` in, result state
out), the mempool.space activity oracle becomes a function parameter, and
the cryptographic library calls (`sha256`, secp256k1 point arithmetic,
bech32 and base58check encoders, HD key derivation) become abstract
function parameters because they are external library collaborators, not
code of this repository.
-/

/-! ## String and character constants (used instead of inline literals) -/

def emptyString : String := ""

def hrpMainnet : String := "bc"

def tapTweakTag : String := "TapTweak"

def poolStateKeyName : String := "pool-state"

def poolStateKeyBase : String := "pool-state-"

def colonString : String := ":"

def apostropheChar : Char := Char.ofNat 39

/-! ## List helpers (models of the JS array operations used by the source) -/

/-- Model of JavaScript `Array.prototype.findIndex` (wrapped in `Option`
instead of the `-1` sentinel). -/
def firstIdxWhere (p : α → Bool) : List α → Option Nat
  | [] => none
  | a :: l => if p a then some 0 else (firstIdxWhere p l).map (· + 1)

/-- The list `[a, a+1, ..., a+n-1]`, used to describe runs of freshly
assigned derivation indices. -/
def seqFrom (a : Nat) : Nat → List Nat
  | 0 => []
  | k + 1 => a :: seqFrom (a + 1) k

/-! ## Data model (`AddressPoolEntry`, `AddressPoolState` of the source) -/

structure AddressPoolEntry where
  index : Nat
  address : String
  lastCheck : Int
  hasActivity : Bool
deriving DecidableEq, Repr

structure AddressPoolState where
  currentIndex : Nat
  lastRotation : Int
  pool : List AddressPoolEntry
deriving DecidableEq, Repr

def POOL_SIZE : Nat := 5

def ROTATION_INTERVAL : Int := 10 * 60 * 1000

/-- Model of JavaScript `Math.max(...pool.map((entry) => entry.index))`
restricted to the non-negative indices that actually occur (the source
only evaluates it on a non-empty pool). -/
def poolMaxIndex (pool : List AddressPoolEntry) : Nat :=
  (pool.map (·.index)).foldl Nat.max 0

/-! ## Activity oracle (`checkAddressActivity`, lines 183-202)

A call to mempool.space either yields a JSON body with the optional
transaction counts `chain_stats.tx_count` / `mempool_stats.tx_count`,
or fails: a thrown network error, or a non-OK HTTP status (which the
source turns into a thrown error as well). -/

inductive OracleResponse where
  | ok (chainTxCount mempoolTxCount : Option Nat)
  | httpError (status : Nat)
  | networkError
deriving DecidableEq, Repr

def OracleResponse.isError : OracleResponse → Bool
  | .ok _ _ => false
  | .httpError _ => true
  | .networkError => true

/-- Model of `data.chain_stats?.tx_count > 0` for an optional count
(`undefined > 0` is `false` in JavaScript). -/
def optCountPositive : Option Nat → Bool
  | some n => decide (0 < n)
  | none => false

/-- `checkAddressActivity`: the `catch` branch maps every error to
`false`; otherwise the two transaction counts are tested. -/
def checkAddressActivity : OracleResponse → Bool
  | .ok c m => optCountPositive c || optCountPositive m
  | .httpError _ => false
  | .networkError => false

/-! ## Store keying

`getPoolState` / `savePoolState` of `address-pool.ts` (lines 207-227) call
`this.store.get("pool-state", ...)` / `this.store.set("pool-state", ...)`:
the blob key does not depend on the configuration held in `this.xpub` and
`this.derivationPath`. -/

def poolStateKey (_xpub _derivationPath : String) : String :=
  poolStateKeyName

/-- `generateEnvironmentHash` of the variant pool-manager module (the
`@swan-bitcoin/xpub-lib` based `AddressPoolManager`): first 16 hex
characters of `sha256(xpub + ":" + derivationPath)`.  The SHA-256 hex
digest itself is the external `crypto` library, passed as a parameter. -/
def generateEnvironmentHash (sha256hex : String → String)
    (xpub derivationPath : String) : String :=
  ((sha256hex (xpub ++ colonString ++ derivationPath)).toList.take 16).asString

/-- The blob cache key of the variant module:
`pool-state-${this.environmentHash}`. -/
def variantCacheKey (sha256hex : String → String)
    (xpub derivationPath : String) : String :=
  poolStateKeyBase ++ generateEnvironmentHash sha256hex xpub derivationPath

/-! ## Purpose detection (`detectPurpose`, lines 87-95)

The source runs `this.derivationPath.match(/m\/(\d+)'/)` and falls back to
84 when there is no match.  The regular expression is modelled exactly:
a match at a position requires the character `m`, then `/`, then a
non-empty maximal run of decimal digits, then an apostrophe (backtracking
inside the digit run cannot succeed because a digit is not an apostrophe,
so the greedy run must be followed by the apostrophe directly); the
search tries positions left to right. -/

def digitsVal (ds : List Char) : Nat :=
  ds.foldl (fun a c => a * 10 + (c.toNat - 48)) 0

/-- Try to match `m\/(\d+)'` at the head of the character list; return the
captured number on success. -/
def purposeMatchAt (cs : List Char) : Option Nat :=
  match cs with
  | c1 :: c2 :: rest =>
    if c1 = 'm' ∧ c2 = '/' then
      let ds := rest.takeWhile Char.isDigit
      if ds.isEmpty then none
      else
        match rest.drop ds.length with
        | c :: _ => if c = apostropheChar then some (digitsVal ds) else none
        | [] => none
    else none
  | _ => none

/-- Leftmost match of `m\/(\d+)'` anywhere in the string. -/
def findPurposeMatch : List Char → Option Nat
  | [] => none
  | c :: cs =>
    match purposeMatchAt (c :: cs) with
    | some n => some n
    | none => findPurposeMatch cs

/-- `detectPurpose`: captured purpose number, defaulting to 84. -/
def detectPurpose (derivationPath : String) : Nat :=
  match findPurposeMatch derivationPath.toList with
  | some n => n
  | none => 84

/-! ## Address encoding (`deriveAddress`, lines 100-178)

Bytes are `Nat` values `< 256` in lists.  The library collaborators are
abstract parameters: `hash160 = ripemd160 ∘ sha256`, the base58check and
bech32/bech32m encoders of `@scure/base`, and the secp256k1 point
arithmetic of `@noble/curves`. -/

def beNat (bytes : List Nat) : Nat :=
  bytes.foldl (fun a b => a * 256 + b) 0

structure CurveOps (Point : Type) where
  fromCompressed : List Nat → Point
  add : Point → Point → Point
  base : Point
  mul : Point → Nat → Point
  toCompressedBytes : Point → List Nat

structure EncodingLibs where
  sha256 : List Nat → List Nat
  hash160 : List Nat → List Nat
  base58check : List Nat → String
  bech32Words : List Nat → List Nat
  bech32Encode : String → List Nat → String
  bech32mWords : List Nat → List Nat
  bech32mEncode : String → List Nat → String

def utf8Bytes (s : String) : List Nat :=
  s.toUTF8.toList.map (·.toNat)

/-- BIP340/BIP341 tagged hash of the source (lines 27-31):
`sha256(sha256(tag) || sha256(tag) || m)`. -/
def taggedHash (sha256 : List Nat → List Nat) (tag : String)
    (m : List Nat) : List Nat :=
  let th := sha256 (utf8Bytes tag)
  sha256 (th ++ th ++ m)

/-- `taprootTweakXOnly` (lines 34-48): BIP86 output key
`Q = P + H_TapTweak(P) * G`, returning the x-only bytes of `Q`. -/
def taprootTweakXOnly {Point : Type} (C : CurveOps Point)
    (sha256 : List Nat → List Nat) (internalXOnly : List Nat) : List Nat :=
  let tweak := taggedHash sha256 tapTweakTag internalXOnly
  let tweakBig := beNat tweak
  let P := C.fromCompressed (2 :: internalXOnly)
  let Q := if tweakBig = 0 then P else C.add P (C.mul C.base tweakBig)
  (C.toCompressedBytes Q).drop 1

/-- The address string built by the body of `deriveAddress` for a derived
compressed public key, following the four sequential `if` blocks of the
source (at most one fires because `purpose` is a single number); `address`
starts as the empty string and keeps its last assigned value. -/
def encodeForPurpose {Point : Type} (L : EncodingLibs) (C : CurveOps Point)
    (purpose : Nat) (publicKey : List Nat) : String :=
  let address0 := emptyString
  let address1 :=
    if purpose = 44 then L.base58check (0 :: L.hash160 publicKey)
    else address0
  let address2 :=
    if purpose = 49 then
      L.base58check (5 :: L.hash160 (0 :: 20 :: L.hash160 publicKey))
    else address1
  let address3 :=
    if purpose = 84 then
      L.bech32Encode hrpMainnet (0 :: L.bech32Words (L.hash160 publicKey))
    else address2
  let address4 :=
    if purpose = 86 then
      L.bech32mEncode hrpMainnet
        (1 :: L.bech32mWords
          (taprootTweakXOnly C L.sha256 ((publicKey.drop 1).take 32)))
    else address3
  address4

/-- `deriveAddress` after the child public key has been obtained from the
HD key library: encode for the detected purpose, and fail (`none`, the
thrown error) when no branch produced an address. -/
def deriveAddressEnc {Point : Type} (L : EncodingLibs) (C : CurveOps Point)
    (derivationPath : String) (publicKey : List Nat) : Option String :=
  let purpose := detectPurpose derivationPath
  let address := encodeForPurpose L C purpose publicKey
  if address = emptyString then none else some address

/-! ## Pool initialization (`initializePool`, lines 232-253) -/

def initializePool (derive : Nat → String) (now : Int) : AddressPoolState :=
  { currentIndex := 0
    lastRotation := now
    pool := (List.range POOL_SIZE).map (fun i =>
      { index := i, address := derive i, lastCheck := now,
        hasActivity := false }) }

/-! ## Replacement (`replaceUsedAddresses`, lines 259-297) -/

/-- The `for (const usedEntry of usedAddresses)` loop: one fresh entry per
used entry, with `nextIndex` incremented per iteration. -/
def freshEntries (derive : Nat → String) (now : Int) :
    Nat → Nat → List AddressPoolEntry
  | _, 0 => []
  | nextIndex, k + 1 =>
    { index := nextIndex, address := derive nextIndex, lastCheck := now,
      hasActivity := false } :: freshEntries derive now (nextIndex + 1) k

def replaceUsedAddresses (derive : Nat → String) (now : Int)
    (state : AddressPoolState) : AddressPoolState :=
  let usedAddresses := state.pool.filter (fun e => e.hasActivity)
  let unusedAddresses := state.pool.filter (fun e => !e.hasActivity)
  if usedAddresses.length = 0 then state
  else
    let maxIndex := poolMaxIndex state.pool
    let newPool :=
      unusedAddresses ++ freshEntries derive now (maxIndex + 1)
        usedAddresses.length
    let newCurrentIndex :=
      match firstIdxWhere (fun e => !e.hasActivity) newPool with
      | some i => i
      | none => 0
    { state with pool := newPool, currentIndex := newCurrentIndex }

/-! ## The rotation scan (`getCurrentAddress`, lines 316-339) -/

structure ScanResult where
  pool : List AddressPoolEntry
  selected : Option Nat
  queried : List String
deriving DecidableEq, Repr

/-- The `for (let i = 0; i < state.pool.length; i++)` scan loop.  The
fuel is the loop counter bound `state.pool.length`; `nextIndex` is always
reduced modulo the pool length, so the `none` row of the lookup is dead
code for a non-empty pool.  The queried addresses are logged in order. -/
def scanLoop (check : String → Bool) (now : Int) :
    Nat → Nat → List AddressPoolEntry → ScanResult
  | 0, _, pool => { pool := pool, selected := none, queried := [] }
  | fuel + 1, nextIndex, pool =>
    match pool.get? nextIndex with
    | none => { pool := pool, selected := none, queried := [] }
    | some entry =>
      let hasActivity := check entry.address
      let entry' :=
        { entry with hasActivity := hasActivity, lastCheck := now }
      let pool' := pool.set nextIndex entry'
      if hasActivity then
        let r := scanLoop check now fuel ((nextIndex + 1) % pool'.length)
          pool'
        { r with queried := entry.address :: r.queried }
      else
        { pool := pool', selected := some nextIndex,
          queried := [entry.address] }

def scan (check : String → Bool) (now : Int)
    (s : AddressPoolState) : ScanResult :=
  scanLoop check now s.pool.length ((s.currentIndex + 1) % s.pool.length)
    s.pool

/-- The whole rotation branch of `getCurrentAddress`: scan, replace used
entries, reset `currentIndex` to 0 when no unused entry was selected, and
stamp `lastRotation`.  Also returns the logged oracle queries. -/
def rotate (derive : Nat → String) (check : String → Bool) (now : Int)
    (s : AddressPoolState) : AddressPoolState × List String :=
  let r := scan check now s
  let s1 := { s with pool := r.pool,
                     currentIndex :=
                       match r.selected with
                       | some i => i
                       | none => s.currentIndex }
  let s2 := replaceUsedAddresses derive now s1
  let s3 :=
    match r.selected with
    | none => { s2 with currentIndex := 0 }
    | some _ => s2
  ({ s3 with lastRotation := now }, r.queried)

/-- The derivation indices freshly assigned by one rotation (empty when
nothing was replaced; otherwise the run starting right after the largest
index present in the scanned pool). -/
def rotateAssigned (check : String → Bool) (now : Int)
    (s : AddressPoolState) : List Nat :=
  let r := scan check now s
  let used := r.pool.filter (fun e => e.hasActivity)
  if used.length = 0 then []
  else seqFrom (poolMaxIndex r.pool + 1) used.length

/-! ## `getCurrentAddress` (lines 302-358) -/

structure GetResult where
  address : Option String
  state : AddressPoolState
  queried : List String
  wrote : Bool
deriving DecidableEq, Repr

/-- One invocation of `getCurrentAddress`, with the persisted record as
explicit input and the final in-memory state as output.  `address` is
`none` exactly when `state.pool[state.currentIndex]` is out of bounds
(the JS code would crash there); `wrote` records whether `savePoolState`
ran (during initialization or at the end of a rotation). -/
def getCurrentAddress (derive : Nat → String) (check : String → Bool)
    (now : Int) (persisted : Option AddressPoolState) : GetResult :=
  let state :=
    match persisted with
    | some s => s
    | none => initializePool derive now
  if ROTATION_INTERVAL ≤ now - state.lastRotation then
    let res := rotate derive check now state
    { address := (res.1.pool.get? res.1.currentIndex).map (·.address)
      state := res.1
      queried := res.2
      wrote := true }
  else
    { address := (state.pool.get? state.currentIndex).map (·.address)
      state := state
      queried := []
      wrote := persisted.isNone }

/-! ## Reachability

The persisted record evolves only through `initializePool` (first access)
and through the rotation branch of `getCurrentAddress` (guarded by the
10-minute interval); every other invocation leaves the record unchanged.
`Reached s hist` additionally carries the trace `hist` of every derivation
index ever assigned to a pool entry, in assignment order. -/

inductive Reached (derive : Nat → String) :
    AddressPoolState → List Nat → Prop where
  | init (now : Int) :
      Reached derive (initializePool derive now) (List.range POOL_SIZE)
  | step (s : AddressPoolState) (hist : List Nat) (check : String → Bool)
      (now : Int) :
      Reached derive s hist →
      ROTATION_INTERVAL ≤ now - s.lastRotation →
      Reached derive (rotate derive check now s).1
        (hist ++ rotateAssigned check now s)

/-! ## Specification-side definitions

These follow the natural-language wording of the specification (rotation
procedure steps 1-4 and the P2TR encoding paragraph); they are compared
with the definitions above, which were translated from the source. -/

def specDefaultEntry : AddressPoolEntry :=
  { index := 0, address := emptyString, lastCheck := 0,
    hasActivity := false }

/-- Step 1 of the rotation procedure: start at `(currentIndex + 1) mod 5`
and visit up to 5 entries in increasing rotation order, wrapping. -/
def specVisitOrder (currentIndex len : Nat) : List Nat :=
  (List.range len).map (fun i => (currentIndex + 1 + i) % len)

/-- Steps 1-3 of the rotation procedure, written from the specification:
walk the visit order; the scan stops at the first entry reported unused
(that position becomes the candidate `currentIndex`); each visited entry
is queried and has `lastCheck` and `hasActivity` unconditionally
overwritten with the query result and the current time; entries beyond
the stopping point are not queried and keep their fields. -/
def specScan (check : String → Bool) (now : Int) (currentIndex : Nat)
    (pool : List AddressPoolEntry) : ScanResult :=
  let order := specVisitOrder currentIndex pool.length
  let found := firstIdxWhere
    (fun p => !(check ((pool.getD p specDefaultEntry).address))) order
  let visited :=
    match found with
    | some i => order.take (i + 1)
    | none => order
  { pool := visited.foldl (fun acc p =>
      acc.set p
        (let e := acc.getD p specDefaultEntry
         { e with hasActivity := check e.address, lastCheck := now })) pool
    selected := found.map (fun i => order.getD i 0)
    queried := visited.map (fun p => (pool.getD p specDefaultEntry).address) }

/-- Step 4 of the rotation procedure, written from the specification:
every entry of the whole pool flagged `hasActivity = true` is removed;
for each removed entry one fresh entry is appended whose derivation index
is 1 + the maximum index currently present in the pool, incrementing per
replacement; the kept entries keep their relative order and the fresh
entries come after them. -/
def specReplacePool (derive : Nat → String) (now : Int)
    (pool : List AddressPoolEntry) : List AddressPoolEntry :=
  let removed := pool.filter (fun e => e.hasActivity)
  let kept := pool.filter (fun e => !e.hasActivity)
  kept ++ (List.range removed.length).map (fun k =>
    { index := 1 + poolMaxIndex pool + k
      address := derive (1 + poolMaxIndex pool + k)
      lastCheck := now
      hasActivity := false })

/-- The P2TR paragraph of the specification, written from its words: drop
the parity byte of the compressed public key to get the internal x-only
key; `tweak = taggedHash("TapTweak", internalXOnly)` with
`taggedHash(tag, msg) = SHA256(SHA256(tag) || SHA256(tag) || msg)`; lift
the internal x-only coordinate to the even-Y secp256k1 point `P`
(compressed parse of an even-parity byte followed by the coordinate);
`Q = P` when the tweak is 0 and `Q = P + tweak * G` otherwise; bech32m
encode the x-only coordinate of `Q` with prefix `bc`, witness version 1. -/
def specP2TR {Point : Type} (L : EncodingLibs) (C : CurveOps Point)
    (publicKey : List Nat) : String :=
  let internalXOnly := publicKey.drop 1
  let th := L.sha256 (utf8Bytes tapTweakTag)
  let tweak := L.sha256 (th ++ th ++ internalXOnly)
  let P := C.fromCompressed (2 :: internalXOnly)
  let Q := if beNat tweak = 0 then P else C.add P (C.mul C.base (beNat tweak))
  L.bech32mEncode hrpMainnet
    (1 :: L.bech32mWords ((C.toCompressedBytes Q).drop 1))

/-! ## Helper lemmas -/

theorem firstIdxWhere_lt_length {α : Type _} {p : α → Bool} :
    ∀ {l : List α} {i : Nat}, firstIdxWhere p l = some i → i < l.length := by
  intro l
  induction l with
  | nil => intro i h; simp [firstIdxWhere] at h
  | cons a l ih =>
    intro i h
    by_cases hp : p a
    · simp [firstIdxWhere, hp] at h
      simp only [List.length_cons]
      omega
    · simp [firstIdxWhere, hp, Option.map_eq_some'] at h
      obtain ⟨j, hj, rfl⟩ := h
      have := ih hj
      simp only [List.length_cons]
      omega

theorem mem_seqFrom {x : Nat} :
    ∀ {n a : Nat}, x ∈ seqFrom a n → a ≤ x ∧ x < a + n := by
  intro n
  induction n with
  | zero => intro a h; simp [seqFrom] at h
  | succ k ih =>
    intro a h
    simp only [seqFrom, List.mem_cons] at h
    rcases h with rfl | h
    · omega
    · have := ih h
      omega

theorem seqFrom_pairwise : ∀ (n a : Nat),
    List.Pairwise (· < ·) (seqFrom a n) := by
  intro n
  induction n with
  | zero => intro a; simp [seqFrom]
  | succ k ih =>
    intro a
    simp only [seqFrom, List.pairwise_cons]
    refine ⟨fun x hx => ?_, ih (a + 1)⟩
    have := mem_seqFrom hx
    omega

theorem seqFrom_last_mem : ∀ (n a : Nat), 0 < n → a + n - 1 ∈ seqFrom a n := by
  intro n
  induction n with
  | zero => intro a h; omega
  | succ k ih =>
    intro a _
    simp only [seqFrom, List.mem_cons]
    rcases Nat.eq_zero_or_pos k with rfl | hk
    · left; omega
    · right
      have := ih (a + 1) hk
      have heq : a + 1 + k - 1 = a + (k + 1) - 1 := by omega
      rwa [heq] at this

theorem freshEntries_length (derive : Nat → String) (now : Int) :
    ∀ (k a : Nat), (freshEntries derive now a k).length = k := by
  intro k
  induction k with
  | zero => intro a; rfl
  | succ n ih => intro a; simp [freshEntries, ih]

theorem freshEntries_map_index (derive : Nat → String) (now : Int) :
    ∀ (k a : Nat), (freshEntries derive now a k).map (·.index) = seqFrom a k := by
  intro k
  induction k with
  | zero => intro a; rfl
  | succ n ih => intro a; simp [freshEntries, seqFrom, ih]

theorem freshEntries_hasActivity (derive : Nat → String) (now : Int) :
    ∀ (k a : Nat) (e : AddressPoolEntry),
      e ∈ freshEntries derive now a k → e.hasActivity = false := by
  intro k
  induction k with
  | zero => intro a e h; simp [freshEntries] at h
  | succ n ih =>
    intro a e h
    simp only [freshEntries, List.mem_cons] at h
    rcases h with rfl | h
    · rfl
    · exact ih (a + 1) e h

theorem foldl_max_init : ∀ (l : List Nat) (a : Nat), a ≤ l.foldl Nat.max a := by
  intro l
  induction l with
  | nil => intro a; simp
  | cons x l ih =>
    intro a
    simp only [List.foldl_cons]
    exact le_trans (Nat.le_max_left a x) (ih (Nat.max a x))

theorem le_foldl_max {x : Nat} :
    ∀ {l : List Nat}, x ∈ l → ∀ (a : Nat), x ≤ l.foldl Nat.max a := by
  intro l
  induction l with
  | nil => intro h; simp at h
  | cons y l ih =>
    intro h a
    simp only [List.mem_cons] at h
    rcases h with rfl | h
    · exact le_trans (Nat.le_max_right a x) (foldl_max_init l (Nat.max a x))
    · exact ih h (Nat.max a y)

theorem foldl_max_le {b : Nat} :
    ∀ {l : List Nat}, (∀ x ∈ l, x ≤ b) → ∀ {a : Nat}, a ≤ b →
      l.foldl Nat.max a ≤ b := by
  intro l
  induction l with
  | nil => intro _ a ha; simpa using ha
  | cons y l ih =>
    intro h a ha
    simp only [List.foldl_cons]
    exact ih (fun x hx => h x (List.mem_cons_of_mem y hx))
      (Nat.max_le.mpr ⟨ha, h y (List.mem_cons_self y l)⟩)

theorem index_le_poolMaxIndex {e : AddressPoolEntry}
    {pool : List AddressPoolEntry} (h : e ∈ pool) :
    e.index ≤ poolMaxIndex pool :=
  le_foldl_max (List.mem_map_of_mem (·.index) h) 0

theorem poolMaxIndex_le {pool : List AddressPoolEntry} {b : Nat}
    (h : ∀ e ∈ pool, e.index ≤ b) : poolMaxIndex pool ≤ b := by
  refine foldl_max_le ?_ (Nat.zero_le b)
  intro x hx
  obtain ⟨e, he, rfl⟩ := List.mem_map.mp hx
  exact h e he

theorem set_get?_self {α : Type _} :
    ∀ (l : List α) (n : Nat) (x : α), l.get? n = some x → l.set n x = l := by
  intro l
  induction l with
  | nil => intro n x h; simp at h
  | cons a l ih =>
    intro n x h
    cases n with
    | zero => simp at h; simp [h]
    | succ m =>
      simp only [List.get?_cons_succ] at h
      simp [List.set_cons_succ, ih m x h]

theorem scanLoop_map {β : Type _} (check : String → Bool) (now : Int)
    (f : AddressPoolEntry → β)
    (hf : ∀ (e : AddressPoolEntry) (b : Bool) (t : Int),
      f { e with hasActivity := b, lastCheck := t } = f e) :
    ∀ (fuel i : Nat) (pool : List AddressPoolEntry),
      ((scanLoop check now fuel i pool).pool).map f = pool.map f := by
  intro fuel
  induction fuel with
  | zero => intro i pool; rfl
  | succ n ih =>
    intro i pool
    simp only [scanLoop]
    cases hget : pool.get? i with
    | none => rfl
    | some entry =>
      have hset : (pool.set i
          { entry with hasActivity := check entry.address,
                       lastCheck := now }).map f = pool.map f := by
        rw [List.map_set, hf]
        exact set_get?_self _ _ _ (by rw [List.get?_map, hget]; rfl)
      cases hb : check entry.address with
      | true =>
        rw [hb] at hset
        simp only [hb, if_true]
        rw [ih, hset]
      | false =>
        rw [hb] at hset
        simp only [hb]
        simpa using hset

theorem scanLoop_length (check : String → Bool) (now : Int)
    (fuel i : Nat) (pool : List AddressPoolEntry) :
    (scanLoop check now fuel i pool).pool.length = pool.length := by
  have h := scanLoop_map check now (fun _ => (0 : Nat))
    (fun _ _ _ => rfl) fuel i pool
  have := congrArg List.length h
  simpa using this

theorem scanLoop_map_index (check : String → Bool) (now : Int)
    (fuel i : Nat) (pool : List AddressPoolEntry) :
    ((scanLoop check now fuel i pool).pool).map (·.index) =
      pool.map (·.index) :=
  scanLoop_map check now (·.index) (fun _ _ _ => rfl) fuel i pool

theorem scanLoop_map_index_address (check : String → Bool) (now : Int)
    (fuel i : Nat) (pool : List AddressPoolEntry) :
    ((scanLoop check now fuel i pool).pool).map (fun e => (e.index, e.address)) =
      pool.map (fun e => (e.index, e.address)) :=
  scanLoop_map check now (fun e => (e.index, e.address))
    (fun _ _ _ => rfl) fuel i pool

theorem scanLoop_selected_lt (check : String → Bool) (now : Int) :
    ∀ (fuel i : Nat) (pool : List AddressPoolEntry) {j : Nat},
      (scanLoop check now fuel i pool).selected = some j →
        j < pool.length := by
  intro fuel
  induction fuel with
  | zero => intro i pool j h; simp [scanLoop] at h
  | succ n ih =>
    intro i pool j h
    simp only [scanLoop] at h
    cases hget : pool.get? i with
    | none => rw [hget] at h; simp at h
    | some entry =>
      rw [hget] at h
      have hi : i < pool.length := by
        by_contra hlt
        rw [List.get?_eq_none.mpr (by omega)] at hget
        exact Option.noConfusion hget
      by_cases hb : check entry.address
      · simp only [hb, if_true] at h
        have := ih _ _ h
        simpa [List.length_set] using this
      · simp only [hb] at h
        simp at h
        omega

theorem replace_eq_self {derive : Nat → String} {now : Int}
    {s : AddressPoolState}
    (h : (s.pool.filter (fun e => e.hasActivity)).length = 0) :
    replaceUsedAddresses derive now s = s := by
  simp [replaceUsedAddresses, h]

theorem replace_pool_of_pos {derive : Nat → String} {now : Int}
    {s : AddressPoolState}
    (h : (s.pool.filter (fun e => e.hasActivity)).length ≠ 0) :
    (replaceUsedAddresses derive now s).pool =
      s.pool.filter (fun e => !e.hasActivity) ++
        freshEntries derive now (poolMaxIndex s.pool + 1)
          (s.pool.filter (fun e => e.hasActivity)).length := by
  simp [replaceUsedAddresses, h]

theorem replace_cur_of_pos {derive : Nat → String} {now : Int}
    {s : AddressPoolState}
    (h : (s.pool.filter (fun e => e.hasActivity)).length ≠ 0) :
    (replaceUsedAddresses derive now s).currentIndex =
      match firstIdxWhere (fun e => !e.hasActivity)
        (s.pool.filter (fun e => !e.hasActivity) ++
          freshEntries derive now (poolMaxIndex s.pool + 1)
            (s.pool.filter (fun e => e.hasActivity)).length) with
      | some i => i
      | none => 0 := by
  simp [replaceUsedAddresses, h]

theorem replace_lastRotation (derive : Nat → String) (now : Int)
    (s : AddressPoolState) :
    (replaceUsedAddresses derive now s).lastRotation = s.lastRotation := by
  by_cases h : (s.pool.filter (fun e => e.hasActivity)).length = 0
  · rw [replace_eq_self h]
  · simp [replaceUsedAddresses, h]

theorem replace_length (derive : Nat → String) (now : Int)
    (s : AddressPoolState) :
    (replaceUsedAddresses derive now s).pool.length = s.pool.length := by
  by_cases h : (s.pool.filter (fun e => e.hasActivity)).length = 0
  · rw [replace_eq_self h]
  · rw [replace_pool_of_pos h]
    have hsplit :=
      List.length_eq_length_filter_add (l := s.pool) (fun e => e.hasActivity)
    simp only [List.length_append, freshEntries_length]
    omega

theorem replace_allUnused (derive : Nat → String) (now : Int)
    (s : AddressPoolState) :
    ∀ e ∈ (replaceUsedAddresses derive now s).pool,
      e.hasActivity = false := by
  intro e he
  by_cases h : (s.pool.filter (fun e => e.hasActivity)).length = 0
  · rw [replace_eq_self h] at he
    have hnil : s.pool.filter (fun e => e.hasActivity) = [] :=
      List.length_eq_zero.mp h
    have := List.filter_eq_nil_iff.mp hnil e he
    simpa using this
  · rw [replace_pool_of_pos h] at he
    rcases List.mem_append.mp he with h1 | h1
    · simpa using List.of_mem_filter h1
    · exact freshEntries_hasActivity _ _ _ _ _ h1

theorem scan_length (check : String → Bool) (now : Int)
    (s : AddressPoolState) :
    (scan check now s).pool.length = s.pool.length :=
  scanLoop_length check now s.pool.length _ s.pool

theorem scan_map_index (check : String → Bool) (now : Int)
    (s : AddressPoolState) :
    ((scan check now s).pool).map (·.index) = s.pool.map (·.index) :=
  scanLoop_map_index check now s.pool.length _ s.pool

theorem scan_map_index_address (check : String → Bool) (now : Int)
    (s : AddressPoolState) :
    ((scan check now s).pool).map (fun e => (e.index, e.address)) =
      s.pool.map (fun e => (e.index, e.address)) :=
  scanLoop_map_index_address check now s.pool.length _ s.pool

theorem scan_selected_lt {check : String → Bool} {now : Int}
    {s : AddressPoolState} {j : Nat}
    (h : (scan check now s).selected = some j) : j < s.pool.length :=
  scanLoop_selected_lt check now s.pool.length _ s.pool h

theorem scan_poolMaxIndex (check : String → Bool) (now : Int)
    (s : AddressPoolState) :
    poolMaxIndex (scan check now s).pool = poolMaxIndex s.pool := by
  unfold poolMaxIndex
  rw [scan_map_index]

theorem index_mem_of_map_index_eq {l l' : List AddressPoolEntry}
    {e : AddressPoolEntry} (h : l'.map (·.index) = l.map (·.index))
    (he : e ∈ l') : ∃ e₀ ∈ l, e₀.index = e.index := by
  have : e.index ∈ l.map (·.index) := by
    rw [← h]
    exact List.mem_map_of_mem (·.index) he
  obtain ⟨e₀, he₀, hi⟩ := List.mem_map.mp this
  exact ⟨e₀, he₀, hi⟩

theorem rotate_of_selected_some {derive : Nat → String}
    {check : String → Bool} {now : Int} {s : AddressPoolState} {j : Nat}
    (h : (scan check now s).selected = some j) :
    (rotate derive check now s).1 =
      { replaceUsedAddresses derive now
          { s with pool := (scan check now s).pool, currentIndex := j } with
        lastRotation := now } := by
  simp only [rotate, h]

theorem rotate_of_selected_none {derive : Nat → String}
    {check : String → Bool} {now : Int} {s : AddressPoolState}
    (h : (scan check now s).selected = none) :
    (rotate derive check now s).1 =
      { replaceUsedAddresses derive now
          { s with pool := (scan check now s).pool } with
        currentIndex := 0, lastRotation := now } := by
  simp only [rotate, h]

/-- The inductive invariant for reachable pool states: the pool always has
exactly `POOL_SIZE` entries, the assignment history is strictly
increasing (hence free of reuse), every pool entry carries an index from
the history, every index in the history is bounded by the largest index
currently in the pool, and `currentIndex` is in range. -/
structure PoolInv (s : AddressPoolState) (hist : List Nat) : Prop where
  len : s.pool.length = POOL_SIZE
  cur : s.currentIndex < POOL_SIZE
  hp : hist.Pairwise (· < ·)
  sub : ∀ e ∈ s.pool, e.index ∈ hist
  ub : ∀ n ∈ hist, n ≤ poolMaxIndex s.pool

theorem hist_append_pairwise {hist : List Nat} {M u : Nat}
    (hp : hist.Pairwise (· < ·)) (hub : ∀ n ∈ hist, n ≤ M) :
    (hist ++ seqFrom (M + 1) u).Pairwise (· < ·) := by
  rw [List.pairwise_append]
  refine ⟨hp, seqFrom_pairwise u (M + 1), ?_⟩
  intro a ha b hb
  have hb' := mem_seqFrom hb
  have ha' := hub a ha
  omega

theorem replace_cur_lt_of_pos {derive : Nat → String} {now : Int}
    {s1 : AddressPoolState}
    (hu : (s1.pool.filter (fun e => e.hasActivity)).length ≠ 0) :
    (replaceUsedAddresses derive now s1).currentIndex <
      (replaceUsedAddresses derive now s1).pool.length := by
  rw [replace_cur_of_pos hu, replace_pool_of_pos hu]
  cases hfi : firstIdxWhere (fun e => !e.hasActivity)
      (s1.pool.filter (fun e => !e.hasActivity) ++
        freshEntries derive now (poolMaxIndex s1.pool + 1)
          (s1.pool.filter (fun e => e.hasActivity)).length) with
  | some i =>
    simpa using firstIdxWhere_lt_length hfi
  | none =>
    simp only [List.length_append, freshEntries_length]
    omega

theorem replace_sub {derive : Nat → String} {now : Int}
    {s1 : AddressPoolState} {hist : List Nat}
    (hsub : ∀ e ∈ s1.pool, e.index ∈ hist)
    (hu : (s1.pool.filter (fun e => e.hasActivity)).length ≠ 0) :
    ∀ e ∈ (replaceUsedAddresses derive now s1).pool,
      e.index ∈ hist ++ seqFrom (poolMaxIndex s1.pool + 1)
        (s1.pool.filter (fun e => e.hasActivity)).length := by
  intro e he
  rw [replace_pool_of_pos hu] at he
  rcases List.mem_append.mp he with h1 | h1
  · exact List.mem_append_left _ (hsub e (List.mem_of_mem_filter h1))
  · refine List.mem_append_right _ ?_
    have hm : e.index ∈ (freshEntries derive now (poolMaxIndex s1.pool + 1)
        (s1.pool.filter (fun e => e.hasActivity)).length).map (·.index) :=
      List.mem_map_of_mem (·.index) h1
    rwa [freshEntries_map_index] at hm

theorem replace_ub {derive : Nat → String} {now : Int}
    {s1 : AddressPoolState} {hist : List Nat}
    (hub : ∀ n ∈ hist, n ≤ poolMaxIndex s1.pool)
    (hu : (s1.pool.filter (fun e => e.hasActivity)).length ≠ 0) :
    ∀ n ∈ hist ++ seqFrom (poolMaxIndex s1.pool + 1)
      (s1.pool.filter (fun e => e.hasActivity)).length,
      n ≤ poolMaxIndex (replaceUsedAddresses derive now s1).pool := by
  have hkey : poolMaxIndex s1.pool +
      (s1.pool.filter (fun e => e.hasActivity)).length ≤
      poolMaxIndex (replaceUsedAddresses derive now s1).pool := by
    have hpos : 0 < (s1.pool.filter (fun e => e.hasActivity)).length :=
      Nat.pos_of_ne_zero hu
    have hmem := seqFrom_last_mem
      (s1.pool.filter (fun e => e.hasActivity)).length
      (poolMaxIndex s1.pool + 1) hpos
    rw [← freshEntries_map_index derive now] at hmem
    obtain ⟨e, he, hidx⟩ := List.mem_map.mp hmem
    have he2 : e ∈ (replaceUsedAddresses derive now s1).pool := by
      rw [replace_pool_of_pos hu]
      exact List.mem_append_right _ he
    have hle := index_le_poolMaxIndex he2
    omega
  intro n hn
  rcases List.mem_append.mp hn with h1 | h1
  · have := hub n h1
    omega
  · have := mem_seqFrom h1
    omega

theorem init_inv (derive : Nat → String) (now : Int) :
    PoolInv (initializePool derive now) (List.range POOL_SIZE) := by
  have hmap : (initializePool derive now).pool.map (·.index) =
      List.range POOL_SIZE := by
    simp [initializePool, Function.comp_def]
  refine ⟨?_, ?_, ?_, ?_, ?_⟩
  · simp [initializePool]
  · simp [initializePool, POOL_SIZE]
  · exact List.pairwise_lt_range _
  · intro e he
    simp only [initializePool, List.mem_map] at he
    obtain ⟨i, hi, rfl⟩ := he
    simpa using hi
  · intro n hn
    have hmem : n ∈ (initializePool derive now).pool.map (·.index) := by
      rw [hmap]; exact hn
    exact le_foldl_max hmem 0


theorem rotate_lastRotation (derive : Nat → String) (check : String → Bool)
    (now : Int) (s : AddressPoolState) :
    (rotate derive check now s).1.lastRotation = now := by
  simp only [rotate]

theorem rotate_pool_some {derive : Nat → String} {check : String → Bool}
    {now : Int} {s : AddressPoolState} {j : Nat}
    (h : (scan check now s).selected = some j) :
    (rotate derive check now s).1.pool =
      (replaceUsedAddresses derive now
        { s with pool := (scan check now s).pool,
                 currentIndex := j }).pool := by
  simp only [rotate, h]

theorem rotate_cur_some {derive : Nat → String} {check : String → Bool}
    {now : Int} {s : AddressPoolState} {j : Nat}
    (h : (scan check now s).selected = some j) :
    (rotate derive check now s).1.currentIndex =
      (replaceUsedAddresses derive now
        { s with pool := (scan check now s).pool,
                 currentIndex := j }).currentIndex := by
  simp only [rotate, h]

theorem rotate_pool_none {derive : Nat → String} {check : String → Bool}
    {now : Int} {s : AddressPoolState}
    (h : (scan check now s).selected = none) :
    (rotate derive check now s).1.pool =
      (replaceUsedAddresses derive now
        { s with pool := (scan check now s).pool }).pool := by
  simp only [rotate, h]

theorem rotate_cur_none {derive : Nat → String} {check : String → Bool}
    {now : Int} {s : AddressPoolState}
    (h : (scan check now s).selected = none) :
    (rotate derive check now s).1.currentIndex = 0 := by
  simp only [rotate, h]

theorem step_inv {derive : Nat → String} {s : AddressPoolState}
    {hist : List Nat} (inv : PoolInv s hist) (check : String → Bool)
    (now : Int) :
    PoolInv (rotate derive check now s).1
      (hist ++ rotateAssigned check now s) := by
  have hlen : (scan check now s).pool.length = s.pool.length :=
    scan_length check now s
  have hM : poolMaxIndex (scan check now s).pool = poolMaxIndex s.pool :=
    scan_poolMaxIndex check now s
  have hsub' : ∀ e ∈ (scan check now s).pool, e.index ∈ hist := by
    intro e he
    obtain ⟨e₀, he₀, hi⟩ :=
      index_mem_of_map_index_eq (scan_map_index check now s) he
    rw [← hi]
    exact inv.sub e₀ he₀
  have hub' : ∀ n ∈ hist, n ≤ poolMaxIndex (scan check now s).pool := by
    intro n hn
    rw [hM]
    exact inv.ub n hn
  by_cases hu :
      ((scan check now s).pool.filter (fun e => e.hasActivity)).length = 0
  · have hassign : rotateAssigned check now s = [] := by
      simp only [rotateAssigned]
      rw [if_pos hu]
    rw [hassign, List.append_nil]
    cases hsel : (scan check now s).selected with
    | some j =>
      have heq : replaceUsedAddresses derive now
          { s with pool := (scan check now s).pool, currentIndex := j } =
          { s with pool := (scan check now s).pool, currentIndex := j } :=
        replace_eq_self hu
      refine ⟨?_, ?_, inv.hp, ?_, ?_⟩
      · rw [rotate_pool_some hsel, heq]
        show (scan check now s).pool.length = POOL_SIZE
        rw [hlen]
        exact inv.len
      · rw [rotate_cur_some hsel, heq]
        show j < POOL_SIZE
        have := scan_selected_lt hsel
        have h5 := inv.len
        omega
      · rw [rotate_pool_some hsel, heq]
        exact hsub'
      · rw [rotate_pool_some hsel, heq]
        exact hub'
    | none =>
      have heq : replaceUsedAddresses derive now
          { s with pool := (scan check now s).pool } =
          { s with pool := (scan check now s).pool } :=
        replace_eq_self hu
      refine ⟨?_, ?_, inv.hp, ?_, ?_⟩
      · rw [rotate_pool_none hsel, heq]
        show (scan check now s).pool.length = POOL_SIZE
        rw [hlen]
        exact inv.len
      · rw [rotate_cur_none hsel]
        show 0 < POOL_SIZE
        decide
      · rw [rotate_pool_none hsel, heq]
        exact hsub'
      · rw [rotate_pool_none hsel, heq]
        exact hub'
  · have hassign : rotateAssigned check now s =
        seqFrom (poolMaxIndex (scan check now s).pool + 1)
          ((scan check now s).pool.filter (fun e => e.hasActivity)).length := by
      simp only [rotateAssigned]
      rw [if_neg hu]
    rw [hassign]
    cases hsel : (scan check now s).selected with
    | some j =>
      refine ⟨?_, ?_, hist_append_pairwise inv.hp hub', ?_, ?_⟩
      · rw [rotate_pool_some hsel, replace_length]
        show (scan check now s).pool.length = POOL_SIZE
        rw [hlen]
        exact inv.len
      · rw [rotate_cur_some hsel]
        have h1 := @replace_cur_lt_of_pos derive now
          { s with pool := (scan check now s).pool, currentIndex := j } hu
        rw [replace_length] at h1
        have h2 : ({ s with pool := (scan check now s).pool, currentIndex := j } : AddressPoolState).pool.length = POOL_SIZE := by
          show (scan check now s).pool.length = POOL_SIZE
          rw [hlen]
          exact inv.len
        omega
      · rw [rotate_pool_some hsel]
        exact @replace_sub derive now
          { s with pool := (scan check now s).pool, currentIndex := j }
          hist hsub' hu
      · rw [rotate_pool_some hsel]
        exact @replace_ub derive now
          { s with pool := (scan check now s).pool, currentIndex := j }
          hist hub' hu
    | none =>
      refine ⟨?_, ?_, hist_append_pairwise inv.hp hub', ?_, ?_⟩
      · rw [rotate_pool_none hsel, replace_length]
        show (scan check now s).pool.length = POOL_SIZE
        rw [hlen]
        exact inv.len
      · rw [rotate_cur_none hsel]
        show 0 < POOL_SIZE
        decide
      · rw [rotate_pool_none hsel]
        exact @replace_sub derive now
          { s with pool := (scan check now s).pool } hist hsub' hu
      · rw [rotate_pool_none hsel]
        exact @replace_ub derive now
          { s with pool := (scan check now s).pool } hist hub' hu

theorem reached_inv {derive : Nat → String} {s : AddressPoolState}
    {hist : List Nat} (h : Reached derive s hist) : PoolInv s hist := by
  induction h with
  | init now => exact init_inv derive now
  | step s hist check now _ _ ih => exact step_inv ih check now

theorem exists_five {α : Type _} {l : List α} (h : l.length = 5) :
    ∃ a b c d e, l = [a, b, c, d, e] := by
  rcases l with _ | ⟨a, l⟩
  · simp at h
  rcases l with _ | ⟨b, l⟩
  · simp at h
  rcases l with _ | ⟨c, l⟩
  · simp at h
  rcases l with _ | ⟨d, l⟩
  · simp at h
  rcases l with _ | ⟨e, l⟩
  · simp at h
  rcases l with _ | ⟨f, l⟩
  · exact ⟨a, b, c, d, e, rfl⟩
  · simp at h

theorem range_five : List.range 5 = [0, 1, 2, 3, 4] := rfl

set_option maxHeartbeats 4000000 in
/-- C2: whenever `getCurrentAddress` runs the rotation branch, the scan it
performs over a 5-entry pool with a valid `currentIndex` is exactly the
procedure described by the specification (`specScan`): it starts at
`(currentIndex + 1) mod 5`, visits at most 5 entries in increasing
wrapping order, queries the activity oracle for each visited entry and
unconditionally overwrites the `lastCheck` and `hasActivity` fields of
that entry with the query result and the current time, stops at the
first entry reported unused (whose position becomes the selected
candidate `currentIndex`), and neither queries nor modifies the entries
beyond the stopping point. -/
theorem c2_rotation_scan (check : String → Bool) (now : Int)
    (s : AddressPoolState) (h5 : s.pool.length = 5)
    (hc : s.currentIndex < 5) :
    scan check now s = specScan check now s.currentIndex s.pool := by
  obtain ⟨c, lr, pool⟩ := s
  simp only at h5 hc
  obtain ⟨e0, e1, e2, e3, e4, rfl⟩ := exists_five h5
  show scan check now
      { currentIndex := c, lastRotation := lr,
        pool := [e0, e1, e2, e3, e4] } =
    specScan check now c [e0, e1, e2, e3, e4]
  interval_cases c <;>
    (cases hb0 : check e0.address <;> cases hb1 : check e1.address <;>
      cases hb2 : check e2.address <;> cases hb3 : check e3.address <;>
        cases hb4 : check e4.address <;>
          simp [scan, scanLoop, specScan, specVisitOrder, firstIdxWhere,
            List.getD_eq_getElem?_getD, range_five, hb0, hb1, hb2, hb3, hb4])

def sampleEntry (i : Nat) : AddressPoolEntry :=
  { index := i, address := emptyString, lastCheck := 0,
    hasActivity := false }

def samplePool : List AddressPoolEntry :=
  [sampleEntry 0, sampleEntry 1, sampleEntry 2, sampleEntry 3,
    sampleEntry 4]

def sampleState : AddressPoolState :=
  { currentIndex := 0, lastRotation := 0, pool := samplePool }

/-- Witness for C2 at a concrete 5-entry pool. -/
theorem c2_rotation_scan_witness :
    sampleState.pool.length = 5 ∧ sampleState.currentIndex < 5 ∧
      scan (fun _ => false) 0 sampleState =
        specScan (fun _ => false) 0 sampleState.currentIndex
          sampleState.pool :=
  ⟨by decide, by decide,
    c2_rotation_scan (fun _ => false) 0 sampleState (by decide) (by decide)⟩

/-- C1: for every pool state reachable from initialization through any
sequence of rotations performed by `getCurrentAddress` (the `Reached`
relation, which also carries the trace `hist` of every derivation index
ever assigned to a pool entry, in assignment order), the pool holds
exactly 5 entries, the trace is strictly increasing in assignment order
(hence every assigned index is unique and never reused, even after an
entry is replaced), every index carried by a pool entry belongs to the
trace, and `currentIndex` is a valid position (below 5). -/
theorem c1_pool_invariant (derive : Nat → String) (s : AddressPoolState)
    (hist : List Nat) (h : Reached derive s hist) :
    s.pool.length = 5 ∧ s.currentIndex < 5 ∧
      List.Pairwise (· < ·) hist ∧ (∀ e ∈ s.pool, e.index ∈ hist) := by
  have inv := reached_inv h
  exact ⟨inv.len, inv.cur, inv.hp, inv.sub⟩

def witnessDerive : Nat → String := fun _ => emptyString

/-- Witness for C1: initialization at time 0 followed by one rotation at
time 600000 in which every entry is reported active. -/
theorem c1_pool_invariant_witness :
    (rotate witnessDerive (fun _ => true) 600000
        (initializePool witnessDerive 0)).1.pool.length = 5 ∧
    (rotate witnessDerive (fun _ => true) 600000
        (initializePool witnessDerive 0)).1.currentIndex < 5 ∧
    List.Pairwise (· < ·) (List.range POOL_SIZE ++
      rotateAssigned (fun _ => true) 600000
        (initializePool witnessDerive 0)) ∧
    (∀ e ∈ (rotate witnessDerive (fun _ => true) 600000
        (initializePool witnessDerive 0)).1.pool,
      e.index ∈ List.range POOL_SIZE ++
        rotateAssigned (fun _ => true) 600000
          (initializePool witnessDerive 0)) :=
  c1_pool_invariant witnessDerive _ _
    (Reached.step _ _ _ _ (Reached.init 0) (by decide))

theorem freshEntries_eq (derive : Nat → String) (now : Int) :
    ∀ (k a : Nat), freshEntries derive now a k =
      (List.range k).map (fun j =>
        { index := a + j, address := derive (a + j), lastCheck := now,
          hasActivity := false }) := by
  intro k
  induction k with
  | zero => intro a; rfl
  | succ n ih =>
    intro a
    rw [List.range_succ_eq_map]
    simp only [freshEntries, List.map_cons, List.map_map, ih]
    congr 1
    apply List.map_congr_left
    intro j _
    have hadd : a + 1 + j = a + (j + 1) := by omega
    simp [Function.comp, Nat.succ_eq_add_one, hadd]

/-- C3: the pool produced by `replaceUsedAddresses` is exactly the pool
described by step 4 of the specification (`specReplacePool`): every
entry of the whole pool flagged `hasActivity = true` is removed, one
fresh unused entry per removed entry is appended with derivation index
`1 + the maximum index present in the pool`, incrementing per
replacement, the kept entries keep their relative order and the fresh
entries come after them; and the rotation branch applies this to the
whole post-scan pool (not only to the entries visited this cycle). -/
theorem c3_pool_replacement (derive : Nat → String) (now : Int) :
    (∀ s : AddressPoolState,
      (replaceUsedAddresses derive now s).pool =
        specReplacePool derive now s.pool) ∧
    (∀ (check : String → Bool) (s : AddressPoolState),
      (rotate derive check now s).1.pool =
        specReplacePool derive now (scan check now s).pool) := by
  have h1 : ∀ s : AddressPoolState,
      (replaceUsedAddresses derive now s).pool =
        specReplacePool derive now s.pool := by
    intro s
    by_cases hu : (s.pool.filter (fun e => e.hasActivity)).length = 0
    · rw [replace_eq_self hu]
      have hrem : s.pool.filter (fun e => e.hasActivity) = [] :=
        List.length_eq_zero.mp hu
      have hkept : s.pool.filter (fun e => !e.hasActivity) = s.pool := by
        rw [List.filter_eq_self]
        intro e he
        have := List.filter_eq_nil_iff.mp hrem e he
        simpa using this
      simp [specReplacePool, hrem, hkept]
    · rw [replace_pool_of_pos hu]
      simp only [specReplacePool]
      rw [freshEntries_eq]
      congr 1
      apply List.map_congr_left
      intro j _
      have hadd : poolMaxIndex s.pool + 1 + j =
          1 + poolMaxIndex s.pool + j := by omega
      rw [hadd]
  refine ⟨h1, ?_⟩
  intro check s
  cases hsel : (scan check now s).selected with
  | some j =>
    rw [rotate_pool_some hsel]
    exact h1 _
  | none =>
    rw [rotate_pool_none hsel]
    exact h1 _

theorem init_allUnused (derive : Nat → String) (now : Int) :
    ∀ e ∈ (initializePool derive now).pool, e.hasActivity = false := by
  intro e he
  simp only [initializePool, List.mem_map] at he
  obtain ⟨i, _, rfl⟩ := he
  rfl

theorem rotate_allUnused (derive : Nat → String) (check : String → Bool)
    (now : Int) (s : AddressPoolState) :
    ∀ e ∈ (rotate derive check now s).1.pool, e.hasActivity = false := by
  intro e he
  cases hsel : (scan check now s).selected with
  | some j =>
    rw [rotate_pool_some hsel] at he
    exact replace_allUnused derive now _ e he
  | none =>
    rw [rotate_pool_none hsel] at he
    exact replace_allUnused derive now _ e he

/-- C4 counterexample: a rotation from an all-unused 5-entry pool with
`currentIndex = 0` in which the oracle reports every queried address
unused.  The scan selects position 1, nothing is replaced, and the final
`currentIndex` is 1, while the position of the first entry with
`hasActivity = false` in the resulting pool is 0 — so the claimed
equality fails. -/
theorem c4_counterexample :
    (rotate witnessDerive (fun _ => false) 600000
        sampleState).1.currentIndex = 1 ∧
    firstIdxWhere (fun e => !e.hasActivity)
      (rotate witnessDerive (fun _ => false) 600000
        sampleState).1.pool = some 0 ∧
    ¬ ((rotate witnessDerive (fun _ => false) 600000
        sampleState).1.currentIndex =
      match firstIdxWhere (fun e => !e.hasActivity)
          (rotate witnessDerive (fun _ => false) 600000
            sampleState).1.pool with
        | some i => i
        | none => 0) :=
  ⟨by decide, by decide, by decide⟩

/-- C4 (amended): after a rotation, (a) if the scan found no unused
entry, `currentIndex` is 0; (b) if at least one entry was replaced,
`currentIndex` equals the position of the first entry with
`hasActivity = false` in the resulting pool, defaulting to 0 when there
is none; and (c) if no entry was replaced, `currentIndex` remains the
position selected by the scan (the recompute step of the specification
runs only when a replacement actually happened). -/
theorem c4_current_index_after_rotation (derive : Nat → String)
    (check : String → Bool) (now : Int) (s : AddressPoolState) :
    ((scan check now s).selected = none →
      (rotate derive check now s).1.currentIndex = 0) ∧
    (((scan check now s).pool.filter (fun e => e.hasActivity)).length ≠ 0 →
      (rotate derive check now s).1.currentIndex =
        match firstIdxWhere (fun e => !e.hasActivity)
            (rotate derive check now s).1.pool with
          | some i => i
          | none => 0) ∧
    (((scan check now s).pool.filter (fun e => e.hasActivity)).length = 0 →
      (rotate derive check now s).1.currentIndex =
        match (scan check now s).selected with
          | some j => j
          | none => 0) := by
  refine ⟨fun hsel => rotate_cur_none hsel, ?_, ?_⟩
  · intro hu
    cases hsel : (scan check now s).selected with
    | some j =>
      rw [rotate_cur_some hsel, rotate_pool_some hsel,
        @replace_cur_of_pos derive now
          { s with pool := (scan check now s).pool, currentIndex := j } hu,
        @replace_pool_of_pos derive now
          { s with pool := (scan check now s).pool, currentIndex := j } hu]
    | none =>
      rw [rotate_cur_none hsel]
      have hnonempty : (rotate derive check now s).1.pool.length ≠ 0 := by
        rw [rotate_pool_none hsel, replace_length]
        show (scan check now s).pool.length ≠ 0
        intro h0
        rw [List.length_eq_zero] at h0
        rw [h0] at hu
        simp at hu
      have hall := rotate_allUnused derive check now s
      obtain ⟨x, rest, hxr⟩ :
          ∃ x rest, (rotate derive check now s).1.pool = x :: rest := by
        cases hp : (rotate derive check now s).1.pool with
        | nil => rw [hp] at hnonempty; simp at hnonempty
        | cons x rest => exact ⟨x, rest, rfl⟩
      rw [hxr]
      have hx : x.hasActivity = false :=
        hall x (by rw [hxr]; exact List.mem_cons_self x rest)
      simp [firstIdxWhere, hx]
  · intro hu
    cases hsel : (scan check now s).selected with
    | some j =>
      rw [rotate_cur_some hsel,
        @replace_eq_self derive now
          { s with pool := (scan check now s).pool, currentIndex := j } hu]
    | none =>
      rw [rotate_cur_none hsel]

/-- Witness for the amended C4 at a concrete rotation in which nothing
is replaced. -/
theorem c4_current_index_witness :
    (rotate witnessDerive (fun _ => false) 600000
        sampleState).1.currentIndex =
      match (scan (fun _ => false) 600000 sampleState).selected with
        | some j => j
        | none => 0 :=
  (c4_current_index_after_rotation witnessDerive (fun _ => false) 600000
    sampleState).2.2 (by decide)

theorem getCurrentAddress_stable (derive : Nat → String)
    (check : String → Bool) (now : Int) (s : AddressPoolState)
    (h : now - s.lastRotation < ROTATION_INTERVAL) :
    getCurrentAddress derive check now (some s) =
      { address := (s.pool.get? s.currentIndex).map (·.address)
        state := s
        queried := []
        wrote := false } := by
  simp only [getCurrentAddress]
  rw [if_neg (not_le.mpr h)]
  rfl

/-- C5: if `getCurrentAddress` runs on a persisted state with
`now - lastRotation` strictly below the 10-minute interval, it returns
the address at `pool[currentIndex]`, queries the oracle for nothing,
performs no store write, and leaves the state unchanged; consequently a
second access that is also within the interval returns the same
address. -/
theorem c5_idempotence_within_interval (derive : Nat → String)
    (check : String → Bool) (now : Int) (s : AddressPoolState)
    (h : now - s.lastRotation < ROTATION_INTERVAL) :
    getCurrentAddress derive check now (some s) =
      { address := (s.pool.get? s.currentIndex).map (·.address)
        state := s
        queried := []
        wrote := false } ∧
    ∀ now₂ : Int, now₂ - s.lastRotation < ROTATION_INTERVAL →
      (getCurrentAddress derive check now₂ (some s)).address =
        (getCurrentAddress derive check now (some s)).address := by
  refine ⟨getCurrentAddress_stable derive check now s h, ?_⟩
  intro now₂ h₂
  rw [getCurrentAddress_stable derive check now s h,
    getCurrentAddress_stable derive check now₂ s h₂]

/-- Witness for C5 at a concrete persisted state one millisecond after
its last rotation. -/
theorem c5_idempotence_witness :
    (1 - sampleState.lastRotation < ROTATION_INTERVAL) ∧
      getCurrentAddress witnessDerive (fun _ => true) 1
          (some sampleState) =
        { address :=
            (sampleState.pool.get? sampleState.currentIndex).map (·.address)
          state := sampleState
          queried := []
          wrote := false } :=
  ⟨by decide,
    (c5_idempotence_within_interval witnessDerive (fun _ => true) 1
      sampleState (by decide)).1⟩

theorem replace_cur_of_zero {derive : Nat → String} {now : Int}
    {s1 : AddressPoolState}
    (h : (s1.pool.filter (fun e => e.hasActivity)).length = 0) :
    (replaceUsedAddresses derive now s1).currentIndex = s1.currentIndex := by
  rw [replace_eq_self h]

theorem replace_pool_of_zero {derive : Nat → String} {now : Int}
    {s1 : AddressPoolState}
    (h : (s1.pool.filter (fun e => e.hasActivity)).length = 0) :
    (replaceUsedAddresses derive now s1).pool = s1.pool := by
  rw [replace_eq_self h]

theorem error_check_false :
    ∀ r : OracleResponse, r.isError = true →
      checkAddressActivity r = false := by
  intro r h
  cases r with
  | ok c m => simp [OracleResponse.isError] at h
  | httpError st => rfl
  | networkError => rfl

theorem scan_first_unused (check : String → Bool) (now : Int)
    (s : AddressPoolState) (h5 : s.pool.length = 5)
    (hcf : ∀ a, check a = false) :
    ∃ entry, s.pool.get? ((s.currentIndex + 1) % 5) = some entry ∧
      scan check now s =
        { pool := s.pool.set ((s.currentIndex + 1) % 5)
            { entry with hasActivity := false, lastCheck := now }
          selected := some ((s.currentIndex + 1) % 5)
          queried := [entry.address] } := by
  have hpos : (s.currentIndex + 1) % 5 < s.pool.length := by
    rw [h5]
    exact Nat.mod_lt _ (by decide)
  obtain ⟨entry, hget⟩ :
      ∃ e, s.pool.get? ((s.currentIndex + 1) % 5) = some e := by
    cases hg : s.pool.get? ((s.currentIndex + 1) % 5) with
    | none =>
      rw [List.get?_eq_none] at hg
      omega
    | some e => exact ⟨e, rfl⟩
  refine ⟨entry, hget, ?_⟩
  show scanLoop check now s.pool.length
      ((s.currentIndex + 1) % s.pool.length) s.pool = _
  rw [h5]
  simp only [scanLoop, hget, hcf]
  simp

/-- C6: an activity-oracle error (a network failure or a non-OK HTTP
response) makes `checkAddressActivity` return `false`, exactly as a
report of no activity, with no error surfaced to the caller; and as a
consequence, when the oracle errors for every address during a rotation
from a persisted all-unused 5-entry pool, `currentIndex` lands on the
first scanned position `(currentIndex + 1) mod 5`, the address of that
entry is served, and no pool entry is replaced (the indices and
addresses of the pool are unchanged). -/
theorem c6_oracle_failure_policy (derive : Nat → String)
    (responses : String → OracleResponse) (now : Int)
    (s : AddressPoolState) (h5 : s.pool.length = 5)
    (hall : ∀ e ∈ s.pool, e.hasActivity = false)
    (herr : ∀ a, (responses a).isError = true)
    (htime : ROTATION_INTERVAL ≤ now - s.lastRotation) :
    (∀ r : OracleResponse, r.isError = true →
      checkAddressActivity r = false) ∧
    (getCurrentAddress derive
        (fun a => checkAddressActivity (responses a)) now
        (some s)).state.currentIndex = (s.currentIndex + 1) % 5 ∧
    (getCurrentAddress derive
        (fun a => checkAddressActivity (responses a)) now
        (some s)).state.pool.map (fun e => (e.index, e.address)) =
      s.pool.map (fun e => (e.index, e.address)) ∧
    (getCurrentAddress derive
        (fun a => checkAddressActivity (responses a)) now
        (some s)).address =
      (s.pool.get? ((s.currentIndex + 1) % 5)).map (·.address) := by
  have hcf : ∀ a, (fun a => checkAddressActivity (responses a)) a = false :=
    fun a => error_check_false _ (herr a)
  obtain ⟨entry, hget, hscan⟩ :=
    scan_first_unused (fun a => checkAddressActivity (responses a)) now s
      h5 hcf
  have hsel : (scan (fun a => checkAddressActivity (responses a)) now
      s).selected = some ((s.currentIndex + 1) % 5) := by
    rw [hscan]
  have hpoolall : ∀ e ∈ (scan
      (fun a => checkAddressActivity (responses a)) now s).pool,
      e.hasActivity = false := by
    intro e he
    rw [hscan] at he
    rcases List.mem_or_eq_of_mem_set he with h1 | h1
    · exact hall e h1
    · rw [h1]
  have hune : ((scan (fun a => checkAddressActivity (responses a)) now
      s).pool.filter (fun e => e.hasActivity)).length = 0 := by
    rw [List.length_eq_zero]
    refine List.filter_eq_nil_iff.mpr ?_
    intro e he
    simp [hpoolall e he]
  have hga : getCurrentAddress derive
      (fun a => checkAddressActivity (responses a)) now (some s) =
      { address := ((rotate derive
            (fun a => checkAddressActivity (responses a)) now s).1.pool.get?
          (rotate derive (fun a => checkAddressActivity (responses a)) now
            s).1.currentIndex).map (·.address)
        state := (rotate derive
          (fun a => checkAddressActivity (responses a)) now s).1
        queried := (rotate derive
          (fun a => checkAddressActivity (responses a)) now s).2
        wrote := true } := by
    simp only [getCurrentAddress]
    rw [if_pos htime]
  have hcur : (rotate derive (fun a => checkAddressActivity (responses a))
      now s).1.currentIndex = (s.currentIndex + 1) % 5 := by
    rw [rotate_cur_some hsel]
    exact replace_cur_of_zero hune
  have hpool : (rotate derive (fun a => checkAddressActivity (responses a))
      now s).1.pool =
      (scan (fun a => checkAddressActivity (responses a)) now s).pool := by
    rw [rotate_pool_some hsel]
    exact replace_pool_of_zero hune
  refine ⟨error_check_false, ?_, ?_, ?_⟩
  · rw [hga]
    exact hcur
  · rw [hga]
    show (rotate derive (fun a => checkAddressActivity (responses a)) now
      s).1.pool.map (fun e => (e.index, e.address)) = _
    rw [hpool]
    exact scan_map_index_address _ now s
  · rw [hga]
    show ((rotate derive (fun a => checkAddressActivity (responses a)) now
        s).1.pool.get?
      (rotate derive (fun a => checkAddressActivity (responses a)) now
        s).1.currentIndex).map (·.address) = _
    rw [hpool, hcur]
    have hsp : (scan (fun a => checkAddressActivity (responses a)) now
        s).pool = s.pool.set ((s.currentIndex + 1) % 5)
          { entry with hasActivity := false, lastCheck := now } := by
      rw [hscan]
    rw [hsp, List.get?_set_eq, hget]
    rfl

/-- Witness for C6: a rotation over a concrete all-unused pool with an
oracle that always fails with a network error. -/
theorem c6_oracle_failure_witness :
    (getCurrentAddress witnessDerive
        (fun a => checkAddressActivity
          ((fun _ => OracleResponse.networkError) a)) 600000
        (some sampleState)).state.currentIndex =
      (sampleState.currentIndex + 1) % 5 :=
  (c6_oracle_failure_policy witnessDerive
    (fun _ => OracleResponse.networkError) 600000 sampleState
    (by decide) (by decide) (fun _ => rfl) (by decide)).2.1

theorem getCurrentAddress_address_eq (derive : Nat → String)
    (check : String → Bool) (now : Int)
    (persisted : Option AddressPoolState) :
    (getCurrentAddress derive check now persisted).address =
      ((getCurrentAddress derive check now persisted).state.pool.get?
        (getCurrentAddress derive check now persisted).state.currentIndex).map
          (·.address) := by
  simp only [getCurrentAddress]
  split <;> rfl

theorem getCurrentAddress_state_allUnused (derive : Nat → String)
    (check : String → Bool) (now : Int)
    (persisted : Option AddressPoolState)
    (h : ∀ s, persisted = some s → ∀ e ∈ s.pool, e.hasActivity = false) :
    ∀ e ∈ (getCurrentAddress derive check now persisted).state.pool,
      e.hasActivity = false := by
  cases persisted with
  | none =>
    simp only [getCurrentAddress]
    split
    · exact fun e he => rotate_allUnused derive check now _ e he
    · exact fun e he => init_allUnused derive now e he
  | some s =>
    simp only [getCurrentAddress]
    split
    · exact fun e he => rotate_allUnused derive check now _ e he
    · exact fun e he => h s rfl e he

/-- C10: every state that `getCurrentAddress` can leave behind — the
freshly initialized pool as well as the pool written at the end of a
rotation — has `hasActivity = false` on every entry (so by induction
every persisted state is all-unused), and the entry whose address is
returned always has `hasActivity = false`, i.e. its most recent
classification was unused. -/
theorem c10_persisted_all_unused (derive : Nat → String)
    (check : String → Bool) (now : Int)
    (persisted : Option AddressPoolState)
    (h : ∀ s, persisted = some s → ∀ e ∈ s.pool, e.hasActivity = false) :
    (∀ e ∈ (getCurrentAddress derive check now persisted).state.pool,
      e.hasActivity = false) ∧
    (∀ e, (getCurrentAddress derive check now persisted).state.pool.get?
        (getCurrentAddress derive check now persisted).state.currentIndex =
          some e →
      e.hasActivity = false ∧
        (getCurrentAddress derive check now persisted).address =
          some e.address) := by
  have hall := getCurrentAddress_state_allUnused derive check now persisted h
  refine ⟨hall, ?_⟩
  intro e hget
  refine ⟨hall e (List.get?_mem hget), ?_⟩
  rw [getCurrentAddress_address_eq, hget]
  rfl

def witnessFirstEntry : AddressPoolEntry :=
  { index := 0
    address := witnessDerive 0
    lastCheck := 0
    hasActivity := false }

/-- Witness for C10: the very first access (no persisted record) serves
the entry at index 0, which is classified unused. -/
theorem c10_persisted_all_unused_witness :
    witnessFirstEntry.hasActivity = false ∧
      (getCurrentAddress witnessDerive (fun _ => true) 0 none).address =
        some witnessFirstEntry.address :=
  (c10_persisted_all_unused witnessDerive (fun _ => true) 0 none
    (fun _ hs => nomatch hs)).2 witnessFirstEntry (by decide)

def trivialCurve : CurveOps Unit :=
  { fromCompressed := fun _ => ()
    add := fun _ _ => ()
    base := ()
    mul := fun _ _ => ()
    toCompressedBytes := fun _ => [] }

def trivialLibs : EncodingLibs :=
  { sha256 := fun l => l
    hash160 := fun l => l
    base58check := fun _ => emptyString
    bech32Words := fun l => l
    bech32Encode := fun h _ => h
    bech32mWords := fun l => l
    bech32mEncode := fun h _ => h }

/-- C7: for every 33-byte compressed public key, the purpose-86 branch of
`deriveAddress` (drop the parity byte, tweak by the tagged hash, lift to
the even-Y point, add `tweak * G` unless the tweak is zero, bech32m
encode the x-only coordinate with prefix `bc` and witness version 1)
computes exactly the P2TR encoding described by the specification
(`specP2TR`), for every choice of the SHA-256 and curve-arithmetic
library collaborators. -/
theorem c7_taproot_encoding {Point : Type} (L : EncodingLibs)
    (C : CurveOps Point) (publicKey : List Nat)
    (h : publicKey.length = 33) :
    encodeForPurpose L C 86 publicKey = specP2TR L C publicKey := by
  have hlen : publicKey.tail.length ≤ 32 := by
    simp [h]
  have hdrop : publicKey.tail.take 32 = publicKey.tail :=
    List.take_all_of_le hlen
  simp [encodeForPurpose, specP2TR, taprootTweakXOnly, taggedHash, hdrop]

/-- Witness for C7 at a concrete 33-byte key and concrete trivial
library instances. -/
theorem c7_taproot_encoding_witness :
    (List.replicate 33 2).length = 33 ∧
      encodeForPurpose trivialLibs trivialCurve 86 (List.replicate 33 2) =
        specP2TR trivialLibs trivialCurve (List.replicate 33 2) :=
  ⟨by decide,
    c7_taproot_encoding trivialLibs trivialCurve _ (by decide)⟩

def xpubConfigA : String := "zpubExampleAAAA"

def xpubConfigB : String := "xpubExampleBBBB"

def pathConfigA : String := "m/84h/0h/0h"

def pathConfigB : String := "m/44h/0h/0h"

/-- C8: evaluation of the store keying of `address-pool.ts` at two
distinct configurations.  `getPoolState` and `savePoolState` use the
constant blob key `pool-state`, independent of the extended key and the
derivation path, so two distinct configurations read and write the same
persisted record — contrary to the documented hash-based keying
(`variantCacheKey`, implemented by the `generateEnvironmentHash` variant
module and described in TECHNICAL.md). -/
theorem c8_store_key_constant :
    poolStateKey xpubConfigA pathConfigA = poolStateKeyName ∧
    poolStateKey xpubConfigB pathConfigB = poolStateKeyName ∧
    poolStateKey xpubConfigA pathConfigA =
      poolStateKey xpubConfigB pathConfigB ∧
    ¬ (xpubConfigA = xpubConfigB) :=
  ⟨rfl, rfl, rfl, by decide⟩

/-- C9: for every derivation path without a match of the pattern
`m/<digits>'`, `detectPurpose` silently returns 84 (P2WPKH) instead of
failing, and the resulting address is therefore encoded by the
witness-version-0 bech32 P2WPKH branch. -/
theorem c9_permissive_purpose_default {Point : Type} (L : EncodingLibs)
    (C : CurveOps Point) (path : String) (publicKey : List Nat)
    (h : findPurposeMatch path.toList = none) :
    detectPurpose path = 84 ∧
      encodeForPurpose L C (detectPurpose path) publicKey =
        L.bech32Encode hrpMainnet
          (0 :: L.bech32Words (L.hash160 publicKey)) := by
  have hd : detectPurpose path = 84 := by
    have h' : findPurposeMatch path.data = none := h
    simp [detectPurpose, h']
  refine ⟨hd, ?_⟩
  rw [hd]
  simp [encodeForPurpose]

def witnessPath : String := "m/84/0/0"

/-- Witness for C9: a path whose hardened-purpose marker is missing, so
the regular expression does not match. -/
theorem c9_permissive_purpose_witness :
    findPurposeMatch witnessPath.toList = none ∧
      detectPurpose witnessPath = 84 ∧
        encodeForPurpose trivialLibs trivialCurve
            (detectPurpose witnessPath) [] =
          trivialLibs.bech32Encode hrpMainnet
            (0 :: trivialLibs.bech32Words (trivialLibs.hash160 [])) :=
  ⟨by decide,
    (c9_permissive_purpose_default trivialLibs trivialCurve witnessPath []
      (by decide)).1,
    (c9_permissive_purpose_default trivialLibs trivialCurve witnessPath []
      (by decide)).2⟩
